import Mathlib

/-!
Verification development for the edge-distribution transform engine of
`nodes/modifier_change/objects_along_edge.py` (node `SvDuplicateAlongEdgeNode`).

Vectors are modelled over the reals; the 4x4 matrices of `mathutils` become
`Matrix (Fin 4) (Fin 4) ℝ`.  Python's `ZeroDivisionError` (float division by
zero) is modelled by returning `Except.error DupError.zeroDivision`; all other
arithmetic is total.  `mathutils.Vector.normalized()` returns the zero vector
for a zero input, which the model reproduces exactly.
-/

namespace DupEdge

/-- 3-component real vector (`mathutils.Vector` restricted to 3D). -/
@[ext] structure V3 where
  x : ℝ
  y : ℝ
  z : ℝ

namespace V3

instance : Zero V3 := ⟨⟨0, 0, 0⟩⟩

instance : Add V3 := ⟨fun a b => ⟨a.x + b.x, a.y + b.y, a.z + b.z⟩⟩

instance : Sub V3 := ⟨fun a b => ⟨a.x - b.x, a.y - b.y, a.z - b.z⟩⟩

instance : Neg V3 := ⟨fun a => ⟨-a.x, -a.y, -a.z⟩⟩

instance : SMul ℝ V3 := ⟨fun c a => ⟨c * a.x, c * a.y, c * a.z⟩⟩

/-- Dot product. -/
def dot (a b : V3) : ℝ := a.x * b.x + a.y * b.y + a.z * b.z

/-- Squared Euclidean norm. -/
def normSq (a : V3) : ℝ := a.x ^ 2 + a.y ^ 2 + a.z ^ 2

/-- Euclidean norm (`Vector.length`). -/
noncomputable def length (a : V3) : ℝ := Real.sqrt a.normSq

/-- `Vector.normalized()`: the unit vector in the same direction, or the zero
vector when the input has zero length (mathutils' behaviour). -/
noncomputable def normalized (a : V3) : V3 :=
  if a.length = 0 then 0 else (1 / a.length) • a

/-- Component along an axis index (`vertex[axis]` in Python). -/
def coord (a : V3) (i : Fin 3) : ℝ :=
  if i = 0 then a.x else if i = 1 then a.y else a.z

end V3

/-- `all_axes[i]`: the standard basis vectors. -/
def axisVec (i : Fin 3) : V3 :=
  if i = 0 then ⟨1, 0, 0⟩ else if i = 1 then ⟨0, 1, 0⟩ else ⟨0, 0, 1⟩

/-- Maximum of a list of reals, Python's `max` (the source only calls it on a
non-empty list; on `[]` Python would raise `ValueError`, here we return 0). -/
def listMax : List ℝ → ℝ
  | [] => 0
  | a :: as => as.foldl max a

/-- Minimum of a list of reals, Python's `min` (same caveat as `listMax`). -/
def listMin : List ℝ → ℝ
  | [] => 0
  | a :: as => as.foldl min a

/-- `diameter(vertices, axis)`: the donor's bounding extent along an axis. -/
def diameter (vertices : List V3) (axis : Fin 3) : ℝ :=
  listMax (vertices.map (fun v => v.coord axis)) -
    listMin (vertices.map (fun v => v.coord axis))

/-- 4x4 real matrix (`mathutils.Matrix`). -/
abbrev Mat4 := Matrix (Fin 4) (Fin 4) ℝ

/-- The matrix `m` of `householder`: the rank-one block `u·uᵗ` in the upper
3x3 corner, zero elsewhere (including the (3,3) entry). -/
def outerM (u : V3) : Mat4 :=
  !![u.x * u.x, u.x * u.y, u.x * u.z, 0;
     u.x * u.y, u.y * u.y, u.y * u.z, 0;
     u.x * u.z, u.y * u.z, u.z * u.z, 0;
     0, 0, 0, 0]

/-- `householder(u)`: `h = Matrix() - 2*m`, i.e. `I − 2·u·uᵗ` on the linear
block with homogeneous (3,3) entry 1. -/
def householder (u : V3) : Mat4 := 1 - (2 : ℝ) • outerM u

/-- `autorotate(e1, xx)`: Householder matrix built from the normalization of
`xx − |xx|·e1`. -/
noncomputable def autorotate (e1 xx : V3) : Mat4 :=
  let alpha := xx.length
  let u := xx - alpha • e1
  let v := u.normalized
  householder v

/-- `Matrix.Translation(o)`. -/
def translation (o : V3) : Mat4 :=
  !![1, 0, 0, o.x;
     0, 1, 0, o.y;
     0, 0, 1, o.z;
     0, 0, 0, 1]

/-- The fixed axis-flip reflection of `duplicate_vertices`: it always negates
the X component, whatever orientation axis is selected. -/
def flip : Mat4 :=
  !![-1, 0, 0, 0;
     0, 1, 0, 0;
     0, 0, 1, 0;
     0, 0, 0, 1]

/-- The axis correction as the spec words it (for comparison with `flip`):
the reflection that negates the chosen reference axis's own component and
leaves the other two components unchanged. -/
def specAxisCorrection (ax : Fin 3) : Mat4 :=
  Matrix.diagonal (fun i : Fin 4 => if (i : ℕ) = (ax : ℕ) then (-1 : ℝ) else 1)

/-- `Matrix.Scale(f, 4)`: uniform scale of the three spatial axes. -/
def scaleUniform (f : ℝ) : Mat4 :=
  !![f, 0, 0, 0;
     0, f, 0, 0;
     0, 0, f, 0;
     0, 0, 0, 1]

/-- `Matrix.Scale(f, 4, n)` for a unit axis `n`: `I + (f−1)·n·nᵗ` on the
linear block. -/
def scaleAxisMat (f : ℝ) (n : V3) : Mat4 := 1 + (f - 1) • outerM n

/-- Application of a 4x4 matrix to a 3D point (`m * vertex` in mathutils:
implicit homogeneous coordinate 1, result truncated to 3D). -/
def mulPoint (m : Mat4) (v : V3) : V3 :=
  ⟨m 0 0 * v.x + m 0 1 * v.y + m 0 2 * v.z + m 0 3,
   m 1 0 * v.x + m 1 1 * v.y + m 1 2 * v.z + m 1 3,
   m 2 0 * v.x + m 2 1 * v.y + m 2 2 * v.z + m 2 3⟩

/-- Action of the linear (3x3) part of a 4x4 matrix on a direction vector. -/
def linApply (m : Mat4) (v : V3) : V3 :=
  ⟨m 0 0 * v.x + m 0 1 * v.y + m 0 2 * v.z,
   m 1 0 * v.x + m 1 1 * v.y + m 1 2 * v.z,
   m 2 0 * v.x + m 2 1 * v.y + m 2 2 * v.z⟩

/-- The node's count modes, keyed as in `count_modes` / `count_funcs`. -/
inductive CountMode where
  | count
  | up
  | down
  | off
deriving DecidableEq

/-- Failure conditions: Python's `ZeroDivisionError` on float division by
zero, and the missing-input condition of the broadcast aligner. -/
inductive DupError where
  | zeroDivision
  | emptyInput
deriving DecidableEq

/-- Node configuration: count mode, orientation axis index, and the two
boolean toggles. -/
structure Config where
  count_mode : CountMode
  orient_axis : Fin 3
  scale_all : Bool
  apply_matrices : Bool

/-- `count_const`: Fixed mode, returns the requested count verbatim. -/
def count_const (ax : Fin 3) (v1 v2 : V3) (vertices : List V3) (count : ℤ) :
    Except DupError ℤ :=
  .ok count

/-- `count_up`: `floor(distance / donor_size)`; division by a zero donor size
raises in Python, modelled as `zeroDivision`. -/
noncomputable def count_up (ax : Fin 3) (v1 v2 : V3) (vertices : List V3) (count : ℤ) :
    Except DupError ℤ :=
  let distance := (v1 - v2).length
  let donor_size := diameter vertices ax
  if donor_size = 0 then .error .zeroDivision else .ok ⌊distance / donor_size⌋

/-- `count_down`: `ceil(distance / donor_size)` with the same failure case. -/
noncomputable def count_down (ax : Fin 3) (v1 v2 : V3) (vertices : List V3) (count : ℤ) :
    Except DupError ℤ :=
  let distance := (v1 - v2).length
  let donor_size := diameter vertices ax
  if donor_size = 0 then .error .zeroDivision else .ok ⌈distance / donor_size⌉

/-- `get_count`: the `count_funcs` dispatch table — note `"off"` maps to
`count_up`. -/
noncomputable def get_count (cfg : Config) (v1 v2 : V3) (vertices : List V3) (count : ℤ) :
    Except DupError ℤ :=
  match cfg.count_mode with
  | .count => count_const cfg.orient_axis v1 v2 vertices count
  | .up => count_up cfg.orient_axis v1 v2 vertices count
  | .down => count_down cfg.orient_axis v1 v2 vertices count
  | .off => count_up cfg.orient_axis v1 v2 vertices count

/-- Donor edge: an index pair. -/
abbrev Edge := ℕ × ℕ

/-- Donor face: an index sequence. -/
abbrev Face := List ℕ

/-- The instance origins of `duplicate_vertices` (line 172 of the source):
`np.linspace(0.0, 1.0, count+1)` yields the fractions `k / count` for
`k = 0..count`, and `[:-1]` drops the last one. -/
noncomputable def origins (v1 v2 : V3) (count : ℕ) : List V3 :=
  let direction := v2 - v1
  let edge_length := direction.length
  let one_item_length := edge_length / (count : ℝ)
  let u := direction.normalized
  (List.range count).map
    (fun (k : ℕ) => v1 + ((k : ℝ) / (count : ℝ)) • direction + (0.5 * one_item_length) • u)

/-- `duplicate_vertices(self, v1, v2, vertices, edges, faces, count)`.
`x_scale = one_item_length / actual_length` is computed before any branch on
the scale mode, so a zero donor extent faults in every mode. -/
noncomputable def duplicate_vertices (cfg : Config) (v1 v2 : V3) (vertices : List V3)
    (edges : List Edge) (faces : List Face) (count : ℕ) :
    Except DupError (List Mat4 × List (List V3)) :=
  let direction := v2 - v1
  let edge_length := direction.length
  let one_item_length := edge_length / (count : ℝ)
  let actual_length := diameter vertices cfg.orient_axis
  if actual_length = 0 then .error .zeroDivision else
  let x_scale := one_item_length / actual_length
  let x := axisVec cfg.orient_axis
  let scale : Option Mat4 :=
    if cfg.count_mode = .off then none
    else if cfg.scale_all then some (scaleUniform x_scale)
    else some (scaleAxisMat x_scale x)
  let rot := (autorotate x direction)⁻¹
  let matrices := match scale with
    | none => (origins v1 v2 count).map (fun o => translation o * rot * flip)
    | some s => (origins v1 v2 count).map (fun o => translation o * rot * s * flip)
  let result_vertices :=
    if cfg.apply_matrices then matrices.map (fun m => vertices.map (fun p => mulPoint m p))
    else List.replicate count vertices
  .ok (matrices, result_vertices)

/-- One aligned batch tuple of `process`: donor mesh, segment endpoints and
requested count. -/
structure BatchTuple where
  vertices : List V3
  edges : List Edge
  faces : List Face
  vertex1 : V3
  vertex2 : V3
  count : ℤ

/-- Accumulated outputs of `process`: flattened matrices, vertex-sets and the
replicated edge and face sets. -/
structure BatchOut where
  matrices : List Mat4
  vertices : List (List V3)
  edges : List (List Edge)
  faces : List (List Face)

/-- The per-tuple loop of `process` (lines 261-268): resolve the count, clamp
it to ≥ 1, place the instances, and append this item's block of outputs in
front of the remaining items' blocks. -/
noncomputable def processTuples (cfg : Config) : List BatchTuple → Except DupError BatchOut
  | [] => .ok ⟨[], [], [], []⟩
  | t :: ts => do
    let c0 ← get_count cfg t.vertex1 t.vertex2 t.vertices t.count
    let c := max c0 1
    let pair ← duplicate_vertices cfg t.vertex1 t.vertex2 t.vertices t.edges t.faces c.toNat
    let rest ← processTuples cfg ts
    .ok ⟨pair.1 ++ rest.matrices, pair.2 ++ rest.vertices,
         List.replicate c.toNat t.edges ++ rest.edges,
         List.replicate c.toNat t.faces ++ rest.faces⟩

/-- Stretch a sequence to length `n` by repeating its last element
(helper of the broadcast aligner; empty input stays empty). -/
def stretch (n : ℕ) : List α → List α
  | [] => []
  | a :: as => (List.range n).map (fun p => (a :: as).getD (min p as.length) a)

/-- Common target length of the broadcast aligner: the maximum input length. -/
def maxLen (ls : List (List α)) : ℕ := (ls.map List.length).foldr max 0

/-- Modelled from the spec: `match_long_repeat` of `sverchok.data_structure`
(imported at line 27 of the source but not itself part of `src/`).  Given K
sequences it produces K sequences of the maximum input length, repeating each
sequence's last element, and fails with `EmptyInputError` (here
`DupError.emptyInput`) when some input sequence is empty. -/
def match_long_repeat (ls : List (List α)) : Except DupError (List (List α)) :=
  if ls.any List.isEmpty then .error .emptyInput
  else .ok (ls.map (stretch (maxLen ls)))

/-! ### Basic algebraic lemmas -/

/-! ### Component and norm lemmas for V3 -/

@[simp] theorem V3.zero_x : (0 : V3).x = 0 := rfl
@[simp] theorem V3.zero_y : (0 : V3).y = 0 := rfl
@[simp] theorem V3.zero_z : (0 : V3).z = 0 := rfl

@[simp] theorem V3.add_def (a b : V3) : a + b = ⟨a.x + b.x, a.y + b.y, a.z + b.z⟩ := rfl

@[simp] theorem V3.sub_def (a b : V3) : a - b = ⟨a.x - b.x, a.y - b.y, a.z - b.z⟩ := rfl

@[simp] theorem V3.smul_def (c : ℝ) (a : V3) : c • a = ⟨c * a.x, c * a.y, c * a.z⟩ := rfl

theorem V3.normSq_nonneg (a : V3) : 0 ≤ a.normSq := by
  unfold normSq; positivity

theorem V3.normSq_eq_zero_iff (a : V3) : a.normSq = 0 ↔ a = 0 := by
  unfold normSq
  constructor
  · intro h
    have hx : a.x = 0 := by nlinarith [sq_nonneg a.x, sq_nonneg a.y, sq_nonneg a.z]
    have hy : a.y = 0 := by nlinarith [sq_nonneg a.x, sq_nonneg a.y, sq_nonneg a.z]
    have hz : a.z = 0 := by nlinarith [sq_nonneg a.x, sq_nonneg a.y, sq_nonneg a.z]
    ext <;> simpa
  · intro h; subst h; norm_num

theorem V3.length_nonneg (a : V3) : 0 ≤ a.length := Real.sqrt_nonneg _

theorem V3.sq_length (a : V3) : a.length ^ 2 = a.normSq :=
  Real.sq_sqrt a.normSq_nonneg

theorem V3.length_eq_zero_iff (a : V3) : a.length = 0 ↔ a = 0 := by
  rw [length, Real.sqrt_eq_zero a.normSq_nonneg, normSq_eq_zero_iff]

@[simp] theorem V3.length_zero : (0 : V3).length = 0 := by
  rw [length_eq_zero_iff]

@[simp] theorem V3.normalized_zero : (0 : V3).normalized = 0 := by
  simp [normalized]

theorem V3.normalized_of_ne_zero {a : V3} (h : a.length ≠ 0) :
    a.normalized = (1 / a.length) • a := by
  simp [normalized, h]

theorem dot_self_eq_normSq (a : V3) : a.dot a = a.normSq := by
  unfold V3.dot V3.normSq; ring

theorem dot_smul_left (c : ℝ) (a b : V3) : (c • a).dot b = c * a.dot b := by
  simp [V3.dot]; ring

theorem outer_mul_outer (v : V3) : outerM v * outerM v = v.normSq • outerM v := by
  ext i j
  fin_cases i <;> fin_cases j <;>
    simp [outerM, Matrix.mul_apply, Fin.sum_univ_four, V3.normSq, Matrix.vecHead,
      Matrix.vecTail, -mul_eq_zero] <;> ring

theorem householder_mul_self {v : V3} (hv : v.normSq = 1) :
    householder v * householder v = 1 := by
  have hM : outerM v * outerM v = outerM v := by
    rw [outer_mul_outer, hv, one_smul]
  have hCC : ((2:ℝ) • outerM v) * ((2:ℝ) • outerM v) = (4:ℝ) • outerM v := by
    rw [smul_mul_assoc, mul_smul_comm, hM, smul_smul]; norm_num
  unfold householder
  rw [sub_mul, one_mul, mul_sub, mul_one, hCC]
  have h24 : (2:ℝ) • outerM v - (4:ℝ) • outerM v = -((2:ℝ) • outerM v) := by
    rw [← sub_smul]; norm_num
  rw [h24, sub_neg_eq_add, sub_add_cancel]

theorem householder_inv {v : V3} (hv : v.normSq = 1) :
    (householder v)⁻¹ = householder v :=
  Matrix.inv_eq_right_inv (householder_mul_self hv)

theorem outerM_zero : outerM (0 : V3) = 0 := by
  ext i j
  fin_cases i <;> fin_cases j <;> simp [outerM, Matrix.vecHead, Matrix.vecTail]

theorem householder_zero : householder (0 : V3) = 1 := by
  rw [householder, outerM_zero, smul_zero, sub_zero]

theorem normSq_normalized {a : V3} (h : a.length ≠ 0) : a.normalized.normSq = 1 := by
  have h2 := a.sq_length
  rw [V3.normalized_of_ne_zero h]
  simp only [V3.smul_def, V3.normSq] at h2 ⊢
  field_simp
  linarith [h2]

theorem linApply_one (v : V3) : linApply 1 v = v := by
  simp [linApply, Matrix.one_apply]

theorem linApply_sub (A B : Mat4) (v : V3) :
    linApply (A - B) v = linApply A v - linApply B v := by
  simp [linApply, Matrix.sub_apply]; refine ⟨by ring, by ring, by ring⟩

theorem linApply_smulM (c : ℝ) (A : Mat4) (v : V3) :
    linApply (c • A) v = c • linApply A v := by
  simp [linApply, Matrix.smul_apply, smul_eq_mul]; refine ⟨by ring, by ring, by ring⟩

theorem linApply_outerM (w p : V3) : linApply (outerM w) p = (V3.dot w p) • w := by
  simp [linApply, outerM, V3.dot, Matrix.vecHead, Matrix.vecTail]
  refine ⟨by ring, by ring, by ring⟩

theorem linApply_householder (w p : V3) :
    linApply (householder w) p = p - (2 * V3.dot w p) • w := by
  rw [householder, linApply_sub, linApply_one, linApply_smulM, linApply_outerM]
  apply V3.ext <;> simp <;> ring

theorem linApply_mul_flip (A : Mat4) (v : V3) :
    linApply (A * flip) v = linApply A ⟨-v.x, v.y, v.z⟩ := by
  apply V3.ext <;>
    simp [linApply, flip, Matrix.mul_apply, Fin.sum_univ_four, Matrix.vecHead,
      Matrix.vecTail]

theorem V3.sub_eq_zero_iff {a b : V3} : a - b = 0 ↔ a = b := by
  constructor
  · intro h
    have hx := congrArg V3.x h
    have hy := congrArg V3.y h
    have hz := congrArg V3.z h
    simp at hx hy hz
    apply V3.ext <;> linarith
  · intro h
    subst h
    apply V3.ext <;> simp

theorem normSq_axisVec (i : Fin 3) : (axisVec i).normSq = 1 := by
  fin_cases i <;> simp [axisVec, V3.normSq]

theorem dot_u_axis (d : V3) (i : Fin 3) :
    V3.dot (d - d.length • axisVec i) (axisVec i) = d.coord i - d.length := by
  fin_cases i <;> simp [axisVec, V3.dot, V3.coord]

theorem normSq_sub_smul_axis (d : V3) (i : Fin 3) :
    (d - d.length • axisVec i).normSq = 2 * d.length * (d.length - d.coord i) := by
  have h2 := d.sq_length
  rw [V3.normSq] at h2
  fin_cases i <;> simp [axisVec, V3.coord, V3.normSq] <;> linear_combination -h2

theorem autorotate_of_u_zero {e1 xx : V3} (h : xx - xx.length • e1 = 0) :
    autorotate e1 xx = 1 := by
  show householder ((xx - xx.length • e1).normalized) = 1
  rw [h, V3.normalized_zero, householder_zero]

/-- Scalar identity behind the Householder image computation: one spatial
component of `H·e = d/α`. -/
theorem image_component {L alpha s ei di : ℝ} (hL : L ≠ 0) (halpha : alpha ≠ 0)
    (hL2 : L ^ 2 = 2 * alpha * (alpha - s)) (hsub : alpha - s ≠ 0) :
    ei - 2 * ((1 / L) * (s - alpha)) * ((1 / L) * (di - alpha * ei)) =
      (1 / alpha) * di := by
  field_simp
  linear_combination (alpha * ei - di) * hL2

/-- The inverse of the Householder matrix of `autorotate` maps the reference
axis onto the normalized direction, for any direction of nonzero length. -/
theorem autorotate_inv_image {ax : Fin 3} {d : V3} (hd : d.length ≠ 0) :
    linApply ((autorotate (axisVec ax) d)⁻¹) (axisVec ax) = d.normalized := by
  by_cases hu : (d - d.length • axisVec ax).length = 0
  · have hu0 : d - d.length • axisVec ax = 0 := (V3.length_eq_zero_iff _).mp hu
    have hx := congrArg V3.x hu0
    have hy := congrArg V3.y hu0
    have hz := congrArg V3.z hu0
    simp at hx hy hz
    rw [autorotate_of_u_zero hu0, inv_one, linApply_one, V3.normalized_of_ne_zero hd]
    apply V3.ext <;> simp <;> field_simp <;> linarith
  · have hvn : ((d - d.length • axisVec ax).normalized).normSq = 1 := normSq_normalized hu
    have hrot : (autorotate (axisVec ax) d)⁻¹ =
        householder ((d - d.length • axisVec ax).normalized) := by
      show (householder ((d - d.length • axisVec ax).normalized))⁻¹ = _
      exact householder_inv hvn
    have hL2 : (d - d.length • axisVec ax).length ^ 2 =
        2 * d.length * (d.length - d.coord ax) := by
      rw [V3.sq_length]; exact normSq_sub_smul_axis d ax
    have hsub : d.length - d.coord ax ≠ 0 := by
      intro h0
      apply hu
      have : (d - d.length • axisVec ax).length ^ 2 = 0 := by rw [hL2, h0, mul_zero]
      exact pow_eq_zero_iff two_ne_zero |>.mp this
    rw [hrot, linApply_householder, V3.normalized_of_ne_zero hu, dot_smul_left, dot_u_axis,
      V3.normalized_of_ne_zero hd]
    apply V3.ext <;>
      (simp only [V3.sub_def, V3.smul_def]
       exact image_component hu hd hL2 hsub)

theorem length_smul_axis (c : ℝ) (i : Fin 3) : (c • axisVec i).length = |c| := by
  fin_cases i <;> simp [axisVec, V3.length, V3.normSq, Real.sqrt_sq_eq_abs]

theorem autorotate_pos_multiple {ax : Fin 3} {c : ℝ} (hc : 0 < c) :
    (autorotate (axisVec ax) (c • axisVec ax))⁻¹ = 1 := by
  have h : c • axisVec ax - (c • axisVec ax).length • axisVec ax = 0 := by
    rw [length_smul_axis, abs_of_pos hc]
    apply V3.ext <;> simp
  rw [autorotate_of_u_zero h, inv_one]

theorem linApply_smul_vec (A : Mat4) (c : ℝ) (v : V3) :
    linApply A (c • v) = c • linApply A v := by
  apply V3.ext <;> simp [linApply] <;> ring

theorem dot_normalized_self {d : V3} (hd : d.length ≠ 0) :
    V3.dot d.normalized d.normalized = 1 := by
  rw [dot_self_eq_normSq]; exact normSq_normalized hd

/-- Image of the reference axis under the full linear part
`rot * flip` of an instance transform: the normalized direction, negated
exactly when the orientation axis is X (because `flip` always negates X). -/
theorem rotflip_image {ax : Fin 3} {d : V3} (hd : d.length ≠ 0) :
    linApply ((autorotate (axisVec ax) d)⁻¹ * flip) (axisVec ax) =
      (if ax = 0 then (-1 : ℝ) else 1) • d.normalized := by
  rw [linApply_mul_flip]
  have h : (⟨-(axisVec ax).x, (axisVec ax).y, (axisVec ax).z⟩ : V3) =
      (if ax = 0 then (-1 : ℝ) else 1) • axisVec ax := by
    fin_cases ax <;> simp [axisVec]
  rw [h, linApply_smul_vec, autorotate_inv_image hd]

theorem flip_eq_diagonal : flip = Matrix.diagonal ![(-1 : ℝ), 1, 1, 1] := by
  ext i j
  fin_cases i <;> fin_cases j <;>
    simp [flip, Matrix.diagonal, Matrix.vecHead, Matrix.vecTail]

theorem det_flip : flip.det = -1 := by
  rw [flip_eq_diagonal, Matrix.det_diagonal]
  simp [Fin.prod_univ_four]

theorem det_householder (v : V3) : (householder v).det = 1 - 2 * v.normSq := by
  have h : householder v = 1 + Matrix.col Unit ![v.x, v.y, v.z, 0] *
      Matrix.row Unit ((-2 : ℝ) • ![v.x, v.y, v.z, 0]) := by
    ext i j
    fin_cases i <;> fin_cases j <;>
      simp [householder, outerM, Matrix.col, Matrix.row, Matrix.mul_apply,
        Matrix.one_apply, Matrix.vecHead, Matrix.vecTail] <;> ring
  rw [h, Matrix.det_one_add_col_mul_row]
  simp [Matrix.dotProduct, Fin.sum_univ_four, V3.normSq]
  ring

/-! ### Claim theorems: orientation solver -/

/-- C1 (amended): for every non-degenerate direction `d`, the solver's
returned rotation (the inverse of the Householder reflection) alone maps the
reference axis onto the normalized direction (dot product 1); composed with
the fixed axis-flip as in the final per-instance transform the image is
parallel to `d` only up to sign — the dot product with the normalized
direction is −1 when the reference axis is X and +1 when it is Y or Z
(because the flip always negates X).  When `d` is a positive multiple of the
reference axis the solver returns the identity rotation. -/
theorem claim1_orientation (ax : Fin 3) (d : V3) (hd : d.length ≠ 0) :
    V3.dot (linApply ((autorotate (axisVec ax) d)⁻¹) (axisVec ax)) d.normalized = 1 ∧
    V3.dot (linApply ((autorotate (axisVec ax) d)⁻¹ * flip) (axisVec ax)) d.normalized =
      (if ax = 0 then (-1 : ℝ) else 1) ∧
    (∀ c : ℝ, 0 < c → (autorotate (axisVec ax) (c • axisVec ax))⁻¹ = 1) := by
  refine ⟨?_, ?_, fun c hc => autorotate_pos_multiple hc⟩
  · rw [autorotate_inv_image hd, dot_normalized_self hd]
  · rw [rotflip_image hd, dot_smul_left, dot_normalized_self hd, mul_one]

/-- Witness for C1 at axis Y and direction (0,3,0). -/
theorem claim1_orientation_witness :
    V3.dot (linApply ((autorotate (axisVec 1) ⟨0, 3, 0⟩)⁻¹) (axisVec 1))
        (V3.normalized ⟨0, 3, 0⟩) = 1 ∧
    V3.dot (linApply ((autorotate (axisVec 1) ⟨0, 3, 0⟩)⁻¹ * flip) (axisVec 1))
        (V3.normalized ⟨0, 3, 0⟩) = (if (1 : Fin 3) = 0 then (-1 : ℝ) else 1) ∧
    (∀ c : ℝ, 0 < c → (autorotate (axisVec 1) (c • axisVec 1))⁻¹ = 1) :=
  claim1_orientation 1 ⟨0, 3, 0⟩ (by
    simp [V3.length, V3.normSq, Real.sqrt_ne_zero'])

/-- Counterexample to C1 as stated: for the X reference axis and direction
(0,1,0), the image of the reference axis under rotation-composed-with-flip
has dot product −1, not 1, with the normalized direction. -/
theorem claim1_orientation_cex :
    V3.dot (linApply ((autorotate (axisVec 0) ⟨0, 1, 0⟩)⁻¹ * flip) (axisVec 0))
        (V3.normalized ⟨0, 1, 0⟩) = -1 ∧
    V3.dot (linApply ((autorotate (axisVec 0) ⟨0, 1, 0⟩)⁻¹ * flip) (axisVec 0))
        (V3.normalized ⟨0, 1, 0⟩) ≠ 1 := by
  have hd : (⟨0, 1, 0⟩ : V3).length ≠ 0 := by
    simp [V3.length, V3.normSq, Real.sqrt_ne_zero']
  have h := @rotflip_image 0 ⟨0, 1, 0⟩ hd
  constructor <;> rw [h, dot_smul_left, dot_normalized_self hd] <;> norm_num

/-- C6 (amended): the axis correction actually applied is the fixed
reflection negating the X component regardless of the selected axis — it
coincides with the spec's own-component reflection only for the X axis — and
its composition with the (inverted) Householder reflection still has
determinant +1. -/
theorem claim6_axis_correction :
    flip = specAxisCorrection 0 ∧
    (∀ ax : Fin 3, ax ≠ 0 → flip ≠ specAxisCorrection ax) ∧
    (∀ v : V3, v.normSq = 1 → ((householder v)⁻¹ * flip).det = 1) := by
  refine ⟨?_, ?_, ?_⟩
  · ext i j
    fin_cases i <;> fin_cases j <;>
      simp [flip, specAxisCorrection, Matrix.diagonal, Matrix.vecHead, Matrix.vecTail] <;>
      rw [if_neg (by decide)]
  · intro ax hax h
    fin_cases ax
    · exact hax rfl
    · have h11 := congrFun (congrFun h 1) 1
      simp [flip, specAxisCorrection, Matrix.diagonal, Matrix.vecHead, Matrix.vecTail] at h11
      norm_num at h11
    · have h22 := congrFun (congrFun h 2) 2
      simp [flip, specAxisCorrection, Matrix.diagonal, Matrix.vecHead, Matrix.vecTail] at h22
      norm_num at h22
  · intro v hv
    rw [householder_inv hv, Matrix.det_mul, det_householder, hv, det_flip]
    norm_num

/-- Witness for C6: the flip equals the spec reflection for axis X, and for
the concrete unit vector (1,0,0) the composed determinant is +1. -/
theorem claim6_axis_correction_witness :
    flip = specAxisCorrection 0 ∧
    ((householder ⟨1, 0, 0⟩)⁻¹ * flip).det = 1 :=
  ⟨claim6_axis_correction.1,
   claim6_axis_correction.2.2 ⟨1, 0, 0⟩ (by simp [V3.normSq])⟩

/-- Counterexample to C6 as stated: with the Y axis selected, the applied
axis correction is not the reflection negating the Y component. -/
theorem claim6_axis_correction_cex : flip ≠ specAxisCorrection 1 := by
  intro h
  have h11 := congrFun (congrFun h 1) 1
  simp [flip, specAxisCorrection, Matrix.diagonal, Matrix.vecHead, Matrix.vecTail] at h11
  norm_num at h11

/-- C10 (confirmed): the orientation construction is total, with no epsilon
branch: normalizing the zero vector yields the zero vector, the Householder
formula at that zero vector yields the identity matrix, and for any direction
whose Householder seed `u = d − |d|·e` vanishes (in particular the zero
direction) `autorotate` returns the identity with no division error. -/
theorem claim10_autorotate_total (e1 : V3) :
    (0 : V3).normalized = 0 ∧
    householder ((0 : V3).normalized) = 1 ∧
    (∀ xx : V3, xx - xx.length • e1 = 0 → autorotate e1 xx = 1) ∧
    autorotate e1 0 = 1 := by
  refine ⟨V3.normalized_zero, ?_, fun xx h => autorotate_of_u_zero h, ?_⟩
  · rw [V3.normalized_zero, householder_zero]
  · exact autorotate_of_u_zero (by apply V3.ext <;> simp)

/-- Witness for C10 at the zero direction (its inner hypothesis discharged at
`xx = 0`). -/
theorem claim10_autorotate_total_witness :
    (0 : V3).normalized = 0 ∧ autorotate ⟨1, 0, 0⟩ 0 = 1 :=
  ⟨(claim10_autorotate_total ⟨1, 0, 0⟩).1,
   (claim10_autorotate_total ⟨1, 0, 0⟩).2.2.1 0 (by apply V3.ext <;> simp)⟩

/-! ### Claim theorems: count resolver and placement -/

theorem length_x (a : ℝ) : (⟨a, 0, 0⟩ : V3).length = |a| := by
  simp [V3.length, V3.normSq, Real.sqrt_sq_eq_abs]

theorem origins_length (v1 v2 : V3) (n : ℕ) : (origins v1 v2 n).length = n := by
  unfold origins
  rw [List.length_map, List.length_range]

theorem origins_getD (v1 v2 : V3) (n k : ℕ) (hk : k < n) :
    (origins v1 v2 n).getD k 0 =
      v1 + ((k : ℝ) / (n : ℝ)) • (v2 - v1) +
        (0.5 * ((v2 - v1).length / (n : ℝ))) • (v2 - v1).normalized := by
  have hlen : k < (origins v1 v2 n).length := by rw [origins_length]; exact hk
  rw [List.getD_eq_getElem _ _ hlen]
  unfold origins
  rw [List.getElem_map, List.getElem_range]

theorem smul_smul_v3 (c d : ℝ) (a : V3) : c • (d • a) = (c * d) • a := by
  apply V3.ext <;> simp <;> ring

theorem origins_formula (v1 v2 : V3) (n : ℕ) (hn : 1 ≤ n) (k : ℕ) (hk : k < n) :
    (origins v1 v2 n).getD k 0 = v1 + (((k : ℝ) + 0.5) / (n : ℝ)) • (v2 - v1) := by
  rw [origins_getD v1 v2 n k hk]
  have hc : (n : ℝ) ≠ 0 := Nat.cast_ne_zero.mpr (by omega)
  by_cases hd : (v2 - v1).length = 0
  · have h0 : v2 - v1 = 0 := (V3.length_eq_zero_iff _).mp hd
    rw [h0, V3.normalized_zero]
    apply V3.ext <;> simp
  · have hgen : ∀ L : ℝ, L ≠ 0 → 0.5 * (L / (n : ℝ)) * (1 / L) = 0.5 / (n : ℝ) := by
      intro L hL
      field_simp
      ring
    rw [V3.normalized_of_ne_zero hd, smul_smul_v3, hgen ((v2 - v1).length) hd]
    apply V3.ext <;> (simp; field_simp; ring)

/-- C2 (confirmed): with positive segment length and donor extent, the Fixed
mode returns the requested count verbatim, ScaleUp returns the floor of
segment length over donor extent, and ScaleDown the ceiling. -/
theorem claim2_count_resolver (ax : Fin 3) (v1 v2 : V3) (vertices : List V3) (c : ℤ)
    (hL : 0 < (v1 - v2).length) (hE : 0 < diameter vertices ax) :
    count_const ax v1 v2 vertices c = .ok c ∧
    count_up ax v1 v2 vertices c = .ok ⌊(v1 - v2).length / diameter vertices ax⌋ ∧
    count_down ax v1 v2 vertices c = .ok ⌈(v1 - v2).length / diameter vertices ax⌉ := by
  refine ⟨rfl, ?_, ?_⟩ <;> simp [count_up, count_down, hE.ne']

/-- Witness for C2: segment from the origin to (3.5,0,0) and a donor of
extent 1 along X. -/
theorem claim2_count_resolver_witness :
    count_const 0 ⟨0, 0, 0⟩ ⟨3.5, 0, 0⟩ [⟨0, 0, 0⟩, ⟨1, 0, 0⟩] 5 = .ok 5 ∧
    count_up 0 ⟨0, 0, 0⟩ ⟨3.5, 0, 0⟩ [⟨0, 0, 0⟩, ⟨1, 0, 0⟩] 5 =
      .ok ⌊((⟨0, 0, 0⟩ : V3) - ⟨3.5, 0, 0⟩).length / diameter [⟨0, 0, 0⟩, ⟨1, 0, 0⟩] 0⌋ ∧
    count_down 0 ⟨0, 0, 0⟩ ⟨3.5, 0, 0⟩ [⟨0, 0, 0⟩, ⟨1, 0, 0⟩] 5 =
      .ok ⌈((⟨0, 0, 0⟩ : V3) - ⟨3.5, 0, 0⟩).length / diameter [⟨0, 0, 0⟩, ⟨1, 0, 0⟩] 0⌉ :=
  claim2_count_resolver 0 ⟨0, 0, 0⟩ ⟨3.5, 0, 0⟩ [⟨0, 0, 0⟩, ⟨1, 0, 0⟩] 5
    (by
      have h : ((⟨0, 0, 0⟩ : V3) - ⟨3.5, 0, 0⟩) = (⟨-3.5, 0, 0⟩ : V3) := by
        apply V3.ext <;> norm_num
      rw [h, length_x]
      norm_num)
    (by simp [diameter, listMax, listMin, V3.coord])

/-- C3 (confirmed): for any segment and any count ≥ 1 the placement generator
produces exactly `count` origins, the k-th being
`v1 + ((k + 0.5)/count) · (v2 − v1)`; in particular for count 3 on the
segment from the origin to (3,0,0) the origins are (0.5,0,0), (1.5,0,0),
(2.5,0,0). -/
theorem claim3_origins (v1 v2 : V3) (count : ℕ) (hc : 1 ≤ count) :
    (origins v1 v2 count).length = count ∧
    (∀ k : ℕ, k < count →
      (origins v1 v2 count).getD k 0 =
        v1 + (((k : ℝ) + 0.5) / (count : ℝ)) • (v2 - v1)) ∧
    origins ⟨0, 0, 0⟩ ⟨3, 0, 0⟩ 3 = [⟨0.5, 0, 0⟩, ⟨1.5, 0, 0⟩, ⟨2.5, 0, 0⟩] := by
  refine ⟨origins_length v1 v2 count, fun k hk => origins_formula v1 v2 count hc k hk, ?_⟩
  apply List.ext_getElem (by rw [origins_length]; rfl)
  intro i h1 h2
  have hD := origins_formula ⟨0, 0, 0⟩ ⟨3, 0, 0⟩ 3 (by norm_num) i (by
    rw [origins_length] at h1; exact h1)
  rw [List.getD_eq_getElem _ _ h1] at hD
  rw [hD]
  have h3 : i < 3 := by simpa using h2
  interval_cases i <;> apply V3.ext <;> norm_num

/-- Witness for C3 at count 3 on the segment from the origin to (3,0,0). -/
theorem claim3_origins_witness :
    (origins ⟨0, 0, 0⟩ ⟨3, 0, 0⟩ 3).length = 3 ∧
    (∀ k : ℕ, k < 3 →
      (origins ⟨0, 0, 0⟩ ⟨3, 0, 0⟩ 3).getD k 0 =
        (⟨0, 0, 0⟩ : V3) + (((k : ℝ) + 0.5) / (3 : ℝ)) • ((⟨3, 0, 0⟩ : V3) - ⟨0, 0, 0⟩)) ∧
    origins ⟨0, 0, 0⟩ ⟨3, 0, 0⟩ 3 = [⟨0.5, 0, 0⟩, ⟨1.5, 0, 0⟩, ⟨2.5, 0, 0⟩] :=
  claim3_origins ⟨0, 0, 0⟩ ⟨3, 0, 0⟩ 3 (by norm_num)

theorem V3.sub_self (a : V3) : a - a = 0 := by
  apply V3.ext <;> simp

theorem length_zero_mk : (⟨0, 0, 0⟩ : V3).length = 0 := V3.length_zero

/-- C5 (amended): a zero donor extent makes count resolution fail with the
division-by-zero error (the code's analogue of `DegenerateDonorError`) in the
ScaleUp, ScaleDown and NoScale modes, and makes placement fail in every mode
(including Fixed, whose resolver itself succeeds); no substitute value is
used.  A zero-length segment, however, is not an error in any mode: the
scaled modes resolve it to floor or ceiling of 0, i.e. 0 (clamped to 1 only
later by the caller), and Fixed returns the requested count. -/
theorem claim5_degenerate (cfg : Config) (v1 : V3) (vertices : List V3)
    (edges : List Edge) (faces : List Face) (c : ℤ) (n : ℕ) :
    (diameter vertices cfg.orient_axis = 0 →
      ((cfg.count_mode = CountMode.up ∨ cfg.count_mode = CountMode.down ∨
          cfg.count_mode = CountMode.off →
        ∀ v2 : V3, get_count cfg v1 v2 vertices c = .error .zeroDivision) ∧
       ∀ v2 : V3, duplicate_vertices cfg v1 v2 vertices edges faces n =
         .error .zeroDivision)) ∧
    (diameter vertices cfg.orient_axis ≠ 0 →
      ((cfg.count_mode = CountMode.count → get_count cfg v1 v1 vertices c = .ok c) ∧
       (cfg.count_mode = CountMode.up ∨ cfg.count_mode = CountMode.off →
         get_count cfg v1 v1 vertices c = .ok 0) ∧
       (cfg.count_mode = CountMode.down → get_count cfg v1 v1 vertices c = .ok 0))) := by
  constructor
  · intro hE
    constructor
    · rintro (hm | hm | hm) v2 <;> simp [get_count, hm, count_up, count_down, hE]
    · intro v2
      simp [duplicate_vertices, hE]
  · intro hE
    have h0 : (v1 - v1).length = 0 := by rw [V3.sub_self]; exact V3.length_zero
    refine ⟨fun hm => ?_, fun hm => ?_, fun hm => ?_⟩
    · simp [get_count, hm, count_const]
    · rcases hm with hm | hm <;> simp [get_count, hm, count_up, hE, h0, length_zero_mk]
    · simp [get_count, hm, count_down, hE, h0, length_zero_mk]

/-- Witness for C5: a single-vertex donor (extent 0) makes resolution and
placement fail; a zero-length segment with a proper donor resolves to 0. -/
theorem claim5_degenerate_witness :
    get_count ⟨CountMode.up, 0, false, true⟩ ⟨0, 0, 0⟩ ⟨1, 0, 0⟩ [⟨0, 0, 0⟩] 5 =
      .error .zeroDivision ∧
    duplicate_vertices ⟨CountMode.up, 0, false, true⟩ ⟨0, 0, 0⟩ ⟨1, 0, 0⟩ [⟨0, 0, 0⟩]
      [] [] 1 = .error .zeroDivision ∧
    get_count ⟨CountMode.up, 0, false, true⟩ ⟨0, 0, 0⟩ ⟨0, 0, 0⟩
      [⟨0, 0, 0⟩, ⟨1, 0, 0⟩] 5 = .ok 0 := by
  have h1 := (claim5_degenerate ⟨CountMode.up, 0, false, true⟩ ⟨0, 0, 0⟩ [⟨0, 0, 0⟩]
    [] [] 5 1).1 (by simp [diameter, listMax, listMin, V3.coord])
  have h2 := (claim5_degenerate ⟨CountMode.up, 0, false, true⟩ ⟨0, 0, 0⟩
    [⟨0, 0, 0⟩, ⟨1, 0, 0⟩] [] [] 5 1).2 (by simp [diameter, listMax, listMin, V3.coord])
  exact ⟨h1.1 (Or.inl rfl) ⟨1, 0, 0⟩, h1.2 ⟨1, 0, 0⟩, h2.2.1 (Or.inl rfl)⟩

/-- Counterexample to C5 as stated: a zero-length segment (v1 = v2) in Fixed
mode raises nothing — resolution returns the count verbatim and placement
succeeds. -/
theorem claim5_degenerate_cex :
    get_count ⟨CountMode.count, 0, false, true⟩ ⟨1, 2, 3⟩ ⟨1, 2, 3⟩
      [⟨0, 0, 0⟩, ⟨1, 0, 0⟩] 7 = .ok 7 ∧
    duplicate_vertices ⟨CountMode.count, 0, false, true⟩ ⟨1, 2, 3⟩ ⟨1, 2, 3⟩
      [⟨0, 0, 0⟩, ⟨1, 0, 0⟩] [] [] 7 ≠ .error .zeroDivision := by
  constructor
  · rfl
  · simp [duplicate_vertices, diameter, listMax, listMin, V3.coord]

/-- C7 (confirmed): NoScale mode resolves counts with the very function used
by ScaleUp (`count_funcs` maps "off" to `count_up`, the floor formula), and
placement in that mode applies no scale matrix — each transform is
`Translation · Rotation · AxisCorrection`.  In the concrete scenario of
segment length 3.5 and donor extent 1, the resolved count is 3, which covers
only 3·1 = 3 of the 3.5 length. -/
theorem claim7_noscale (ax : Fin 3) (sa am : Bool) (v1 v2 : V3)
    (vertices : List V3) (edges : List Edge) (faces : List Face) (c : ℤ) (n : ℕ)
    (hE : diameter vertices ax ≠ 0) :
    get_count ⟨CountMode.off, ax, sa, am⟩ v1 v2 vertices c =
      count_up ax v1 v2 vertices c ∧
    (∀ ms vs, duplicate_vertices ⟨CountMode.off, ax, sa, am⟩ v1 v2 vertices edges faces n =
        .ok (ms, vs) →
      ms = (origins v1 v2 n).map
        (fun o => translation o * (autorotate (axisVec ax) (v2 - v1))⁻¹ * flip)) ∧
    get_count ⟨CountMode.off, 0, sa, am⟩ ⟨0, 0, 0⟩ ⟨3.5, 0, 0⟩
      [⟨0, 0, 0⟩, ⟨1, 0, 0⟩] c = .ok 3 ∧
    (3 : ℝ) * diameter [⟨0, 0, 0⟩, ⟨1, 0, 0⟩] 0 <
      ((⟨3.5, 0, 0⟩ : V3) - ⟨0, 0, 0⟩).length := by
  have hsub : ((⟨0, 0, 0⟩ : V3) - ⟨3.5, 0, 0⟩) = (⟨-3.5, 0, 0⟩ : V3) := by
    apply V3.ext <;> norm_num
  have hsub2 : ((⟨3.5, 0, 0⟩ : V3) - ⟨0, 0, 0⟩) = (⟨3.5, 0, 0⟩ : V3) := by
    apply V3.ext <;> norm_num
  have hdia : diameter [(⟨0, 0, 0⟩ : V3), ⟨1, 0, 0⟩] 0 = 1 := by
    simp [diameter, listMax, listMin, V3.coord]
  refine ⟨rfl, ?_, ?_, ?_⟩
  · intro ms vs h
    simp [duplicate_vertices, hE] at h
    exact h.1.symm
  · show count_up 0 ⟨0, 0, 0⟩ ⟨3.5, 0, 0⟩ [⟨0, 0, 0⟩, ⟨1, 0, 0⟩] c = .ok 3
    rw [count_up]
    simp only [hdia, hsub, length_x]
    norm_num [abs_of_nonneg]
  · rw [hdia, hsub2, length_x]
    norm_num [abs_of_nonneg]

/-- Witness for C7 on the segment from the origin to (3.5,0,0) with a donor
of extent 1 along X. -/
theorem claim7_noscale_witness :
    get_count ⟨CountMode.off, 0, false, true⟩ ⟨0, 0, 0⟩ ⟨3.5, 0, 0⟩
        [⟨0, 0, 0⟩, ⟨1, 0, 0⟩] 1 = count_up 0 ⟨0, 0, 0⟩ ⟨3.5, 0, 0⟩
        [⟨0, 0, 0⟩, ⟨1, 0, 0⟩] 1 ∧
    get_count ⟨CountMode.off, 0, false, true⟩ ⟨0, 0, 0⟩ ⟨3.5, 0, 0⟩
        [⟨0, 0, 0⟩, ⟨1, 0, 0⟩] 1 = .ok 3 ∧
    (3 : ℝ) * diameter [⟨0, 0, 0⟩, ⟨1, 0, 0⟩] 0 <
      ((⟨3.5, 0, 0⟩ : V3) - ⟨0, 0, 0⟩).length := by
  have h := claim7_noscale 0 false true ⟨0, 0, 0⟩ ⟨3.5, 0, 0⟩
    [⟨0, 0, 0⟩, ⟨1, 0, 0⟩] [] [] 1 1
    (by simp [diameter, listMax, listMin, V3.coord])
  exact ⟨h.1, h.2.2.1, h.2.2.2⟩

/-- C4 (amended): the scale factor `s = step / donor_extent` (with
`step = segment_length / count`) is computed in every mode — including
NoScale, where a zero donor extent therefore still faults — but it is
applied only when the count mode is not NoScale; when applied it scales all
three axes if `scale_all` is set and only the orientation axis otherwise,
and every final per-instance transform is
`Translation(origin_k) · Rotation · Scale · AxisCorrection` (the scale
factor omitted in NoScale mode). -/
theorem claim4_transform (cfg : Config) (v1 v2 : V3) (vertices : List V3)
    (edges : List Edge) (faces : List Face) (n : ℕ) :
    (diameter vertices cfg.orient_axis = 0 →
      duplicate_vertices cfg v1 v2 vertices edges faces n = .error .zeroDivision) ∧
    (diameter vertices cfg.orient_axis ≠ 0 →
      ∀ ms vs, duplicate_vertices cfg v1 v2 vertices edges faces n = .ok (ms, vs) →
        ms = (origins v1 v2 n).map (fun o =>
          if cfg.count_mode = CountMode.off then
            translation o * (autorotate (axisVec cfg.orient_axis) (v2 - v1))⁻¹ * flip
          else if cfg.scale_all then
            translation o * (autorotate (axisVec cfg.orient_axis) (v2 - v1))⁻¹ *
              scaleUniform (((v2 - v1).length / (n : ℝ)) /
                diameter vertices cfg.orient_axis) * flip
          else
            translation o * (autorotate (axisVec cfg.orient_axis) (v2 - v1))⁻¹ *
              scaleAxisMat (((v2 - v1).length / (n : ℝ)) /
                  diameter vertices cfg.orient_axis)
                (axisVec cfg.orient_axis) * flip)) := by
  constructor
  · intro hE
    simp [duplicate_vertices, hE]
  · intro hE ms vs h
    rcases cfg with ⟨cm, ax2, sa, am⟩
    simp only [duplicate_vertices] at h
    simp only at hE
    rw [if_neg hE] at h
    simp only [Except.ok.injEq, Prod.mk.injEq] at h
    obtain ⟨hm, hv⟩ := h
    cases cm <;> cases sa <;> simp_all

/-- Counterexample to C4 as stated: in NoScale mode with a zero-extent donor
the placement still fails with the scale division error, showing the scale
factor is computed even though NoScale applies none. -/
theorem claim4_transform_cex :
    duplicate_vertices ⟨CountMode.off, 0, false, false⟩ ⟨0, 0, 0⟩ ⟨1, 0, 0⟩
      [⟨0, 0, 0⟩] [] [] 1 = .error .zeroDivision := by
  simp [duplicate_vertices, diameter, listMax, listMin, V3.coord]

/-! ### Claim theorems: batch driver and broadcast aligner -/

theorem dup_ok_lengths (cfg : Config) (v1 v2 : V3) (vertices : List V3)
    (edges : List Edge) (faces : List Face) (n : ℕ) (ms : List Mat4)
    (vs : List (List V3))
    (h : duplicate_vertices cfg v1 v2 vertices edges faces n = .ok (ms, vs)) :
    ms.length = n ∧ vs.length = n ∧ ∀ s ∈ vs, s.length = vertices.length := by
  by_cases hE : diameter vertices cfg.orient_axis = 0
  · simp [duplicate_vertices, hE] at h
  · simp only [duplicate_vertices] at h
    rw [if_neg hE] at h
    simp only [Except.ok.injEq, Prod.mk.injEq] at h
    obtain ⟨hm, hv⟩ := h
    rw [hm] at hv
    rcases cfg with ⟨cm, ax2, sa, am⟩
    have hmlen : ms.length = n := by
      rw [← hm]
      cases cm <;> cases sa <;> simp [origins_length]
    refine ⟨hmlen, ?_, ?_⟩
    · rw [← hv]
      cases am <;> simp [hmlen]
    · intro s hs
      rw [← hv] at hs
      cases am <;> simp at hs
      · rw [hs.2]
      · obtain ⟨m, hm2, hs2⟩ := hs
        rw [← hs2]
        simp

/-- C8 (confirmed): a successful batch step resolves a clamped count ≥ 1,
produces exactly that many transforms and vertex-sets (each vertex-set the
donor's length), replicates the item's edge- and face-sets that many times
unchanged, and prepends this item's whole block before the remaining items'
outputs, so no two items interleave. -/
theorem claim8_batch (cfg : Config) (t : BatchTuple) (ts : List BatchTuple)
    (out : BatchOut) (h : processTuples cfg (t :: ts) = .ok out) :
    ∃ (c0 : ℤ) (ms : List Mat4) (vs : List (List V3)) (rest : BatchOut),
      get_count cfg t.vertex1 t.vertex2 t.vertices t.count = .ok c0 ∧
      duplicate_vertices cfg t.vertex1 t.vertex2 t.vertices t.edges t.faces
        (max c0 1).toNat = .ok (ms, vs) ∧
      1 ≤ (max c0 1).toNat ∧
      ms.length = (max c0 1).toNat ∧
      vs.length = (max c0 1).toNat ∧
      (∀ s ∈ vs, s.length = t.vertices.length) ∧
      processTuples cfg ts = .ok rest ∧
      out.matrices = ms ++ rest.matrices ∧
      out.vertices = vs ++ rest.vertices ∧
      out.edges = List.replicate (max c0 1).toNat t.edges ++ rest.edges ∧
      out.faces = List.replicate (max c0 1).toNat t.faces ++ rest.faces := by
  simp only [processTuples] at h
  cases hg : get_count cfg t.vertex1 t.vertex2 t.vertices t.count with
  | error e =>
    rw [hg] at h
    simp [Bind.bind, Except.bind] at h
  | ok c0 =>
    rw [hg] at h
    simp only [Bind.bind, Except.bind] at h
    cases hd : duplicate_vertices cfg t.vertex1 t.vertex2 t.vertices t.edges t.faces
        (max c0 1).toNat with
    | error e =>
      rw [hd] at h
      simp at h
    | ok pair =>
      rw [hd] at h
      cases hrest : processTuples cfg ts with
      | error e =>
        rw [hrest] at h
        simp at h
      | ok rest =>
        rw [hrest] at h
        simp only [Except.ok.injEq] at h
        obtain ⟨hml, hvl, hvm⟩ := dup_ok_lengths cfg t.vertex1 t.vertex2 t.vertices
          t.edges t.faces (max c0 1).toNat pair.1 pair.2 (by rw [hd])
        exact ⟨c0, pair.1, pair.2, rest, rfl, by rw [hd], by omega, hml, hvl, hvm, rfl,
          by rw [← h], by rw [← h], by rw [← h], by rw [← h]⟩

theorem V3.mk_zero : (⟨0, 0, 0⟩ : V3) = 0 := rfl

theorem autorotate_zero (e1 : V3) : autorotate e1 0 = 1 :=
  autorotate_of_u_zero (by apply V3.ext <;> simp)

theorem translation_zero : translation 0 = 1 := by
  ext i j
  fin_cases i <;> fin_cases j <;>
    simp [translation, Matrix.one_apply, Matrix.vecHead, Matrix.vecTail]

theorem scaleAxisMat_zero_flip :
    scaleAxisMat 0 (axisVec 0) * flip =
      !![0, 0, 0, 0; 0, 1, 0, 0; 0, 0, 1, 0; 0, 0, 0, 1] := by
  ext i j
  fin_cases i <;> fin_cases j <;>
    simp [scaleAxisMat, outerM, axisVec, flip, Matrix.mul_apply, Fin.sum_univ_four,
      Matrix.one_apply, Matrix.add_apply, Matrix.vecHead, Matrix.vecTail]

/-- Concrete evaluation of one placement on a degenerate (zero-length)
segment in Fixed mode: the single transform collapses the X axis. -/
theorem dup_eval_base :
    duplicate_vertices ⟨CountMode.count, 0, false, false⟩ ⟨0, 0, 0⟩ ⟨0, 0, 0⟩
      [⟨0, 0, 0⟩, ⟨1, 0, 0⟩] [(0, 1)] [[0, 1, 2]] 1 =
    .ok ([!![0, 0, 0, 0; 0, 1, 0, 0; 0, 0, 1, 0; 0, 0, 0, 1]],
      [[⟨0, 0, 0⟩, ⟨1, 0, 0⟩]]) := by
  have hdia : diameter [(⟨0, 0, 0⟩ : V3), ⟨1, 0, 0⟩] 0 = 1 := by
    simp [diameter, listMax, listMin, V3.coord]
  simp only [duplicate_vertices]
  rw [if_neg (by rw [hdia]; norm_num)]
  simp [origins, V3.mk_zero, hdia, autorotate_zero, translation_zero,
    scaleAxisMat_zero_flip, List.range_succ]

/-- Witness for C8: one Fixed-mode batch item with requested count 1 on a
degenerate segment. -/
theorem claim8_batch_witness :
    ∃ (c0 : ℤ) (ms : List Mat4) (vs : List (List V3)) (rest : BatchOut),
      get_count ⟨CountMode.count, 0, false, false⟩ ⟨0, 0, 0⟩ ⟨0, 0, 0⟩
        [⟨0, 0, 0⟩, ⟨1, 0, 0⟩] 1 = .ok c0 ∧
      duplicate_vertices ⟨CountMode.count, 0, false, false⟩ ⟨0, 0, 0⟩ ⟨0, 0, 0⟩
        [⟨0, 0, 0⟩, ⟨1, 0, 0⟩] [(0, 1)] [[0, 1, 2]] (max c0 1).toNat = .ok (ms, vs) ∧
      1 ≤ (max c0 1).toNat ∧
      ms.length = (max c0 1).toNat ∧
      vs.length = (max c0 1).toNat ∧
      (∀ s ∈ vs, s.length = 2) ∧
      processTuples ⟨CountMode.count, 0, false, false⟩ [] = .ok rest ∧
      [!![0, 0, 0, 0; 0, 1, 0, 0; 0, 0, 1, 0; 0, 0, 0, 1]] = ms ++ rest.matrices ∧
      [[(⟨0, 0, 0⟩ : V3), ⟨1, 0, 0⟩]] = vs ++ rest.vertices ∧
      [[((0 : ℕ), (1 : ℕ))]] = List.replicate (max c0 1).toNat [(0, 1)] ++ rest.edges ∧
      [[[(0 : ℕ), 1, 2]]] = List.replicate (max c0 1).toNat [[0, 1, 2]] ++ rest.faces :=
  claim8_batch ⟨CountMode.count, 0, false, false⟩
    ⟨[⟨0, 0, 0⟩, ⟨1, 0, 0⟩], [(0, 1)], [[0, 1, 2]], ⟨0, 0, 0⟩, ⟨0, 0, 0⟩, 1⟩ []
    ⟨[!![0, 0, 0, 0; 0, 1, 0, 0; 0, 0, 1, 0; 0, 0, 0, 1]],
      [[⟨0, 0, 0⟩, ⟨1, 0, 0⟩]], [[(0, 1)]], [[[0, 1, 2]]]⟩
    (by
      simp [processTuples, get_count, count_const, Bind.bind, Except.bind, dup_eval_base])

/-- Witness for C4: a NoScale placement with a zero-extent donor faults, and
a Fixed-mode placement on a degenerate segment yields the single anisotropic
scale transform. -/
theorem claim4_transform_witness :
    duplicate_vertices ⟨CountMode.off, 0, false, false⟩ ⟨0, 0, 0⟩ ⟨1, 0, 0⟩
      [⟨0, 0, 0⟩] [] [] 1 = .error .zeroDivision ∧
    [!![0, 0, 0, 0; 0, 1, 0, 0; 0, 0, 1, 0; 0, 0, 0, 1]] =
      (origins ⟨0, 0, 0⟩ ⟨0, 0, 0⟩ 1).map (fun o =>
        if CountMode.count = CountMode.off then
          translation o * (autorotate (axisVec 0) ((⟨0, 0, 0⟩ : V3) - ⟨0, 0, 0⟩))⁻¹ * flip
        else if false then
          translation o * (autorotate (axisVec 0) ((⟨0, 0, 0⟩ : V3) - ⟨0, 0, 0⟩))⁻¹ *
            scaleUniform ((((⟨0, 0, 0⟩ : V3) - ⟨0, 0, 0⟩).length / ((1 : ℕ) : ℝ)) /
              diameter [⟨0, 0, 0⟩, ⟨1, 0, 0⟩] 0) * flip
        else
          translation o * (autorotate (axisVec 0) ((⟨0, 0, 0⟩ : V3) - ⟨0, 0, 0⟩))⁻¹ *
            scaleAxisMat ((((⟨0, 0, 0⟩ : V3) - ⟨0, 0, 0⟩).length / ((1 : ℕ) : ℝ)) /
                diameter [⟨0, 0, 0⟩, ⟨1, 0, 0⟩] 0)
              (axisVec 0) * flip) :=
  ⟨(claim4_transform ⟨CountMode.off, 0, false, false⟩ ⟨0, 0, 0⟩ ⟨1, 0, 0⟩ [⟨0, 0, 0⟩]
      [] [] 1).1 (by simp [diameter, listMax, listMin, V3.coord]),
   (claim4_transform ⟨CountMode.count, 0, false, false⟩ ⟨0, 0, 0⟩ ⟨0, 0, 0⟩
      [⟨0, 0, 0⟩, ⟨1, 0, 0⟩] [(0, 1)] [[0, 1, 2]] 1).2
      (by simp [diameter, listMax, listMin, V3.coord]) _ _ dup_eval_base⟩

theorem stretch_length {α : Type} (n : ℕ) (a : α) (as : List α) :
    (stretch n (a :: as)).length = n := by
  simp [stretch]

theorem stretch_getD {α : Type} (n p : ℕ) (hp : p < n) (a : α) (as : List α) (dflt : α) :
    (stretch n (a :: as)).getD p dflt = (a :: as).getD (min p as.length) dflt := by
  have hlen : p < (stretch n (a :: as)).length := by rw [stretch_length]; exact hp
  rw [List.getD_eq_getElem _ _ hlen]
  simp only [stretch, List.getElem_map, List.getElem_range]
  have hmin : min p as.length < (a :: as).length := by
    simp only [List.length_cons]
    omega
  rw [List.getD_eq_getElem _ _ hmin, List.getD_eq_getElem _ _ hmin]

/-- C9 (confirmed; `match_long_repeat` itself lives in
`sverchok.data_structure`, outside `src/`, and is modelled from the spec):
with every input sequence non-empty, the aligner returns one stretched
sequence per input, each of the maximum input length, whose element at
position `p` is the input's element at `min p (len − 1)` (last-element
repetition); an empty input sequence makes it fail with the empty-input
error. -/
theorem claim9_aligner {α : Type} (ls : List (List α)) :
    ((∀ l ∈ ls, l ≠ []) →
      match_long_repeat ls = .ok (ls.map (stretch (maxLen ls))) ∧
      (ls.map (stretch (maxLen ls))).length = ls.length ∧
      (∀ l ∈ ls, (stretch (maxLen ls) l).length = maxLen ls) ∧
      (∀ i p : ℕ, i < ls.length → p < maxLen ls → ∀ dflt : α,
        ((ls.map (stretch (maxLen ls))).getD i []).getD p dflt =
          (ls.getD i []).getD (min p ((ls.getD i []).length - 1)) dflt)) ∧
    ((∃ l ∈ ls, l = []) → match_long_repeat ls = .error .emptyInput) := by
  constructor
  · intro h
    refine ⟨?_, by rw [List.length_map], ?_, ?_⟩
    · rw [match_long_repeat, if_neg]
      intro hc
      simp only [List.any_eq_true] at hc
      obtain ⟨l, hl, he⟩ := hc
      exact h l hl (List.isEmpty_iff.mp he)
    · intro l hl
      cases l with
      | nil => exact absurd rfl (h [] hl)
      | cons a as => exact stretch_length _ a as
    · intro i p hi hp dflt
      have hi2 : i < (ls.map (stretch (maxLen ls))).length := by
        rw [List.length_map]; exact hi
      rw [List.getD_eq_getElem _ _ hi2, List.getD_eq_getElem _ _ hi]
      simp only [List.getElem_map]
      have hne : ls[i] ≠ [] := h ls[i] (List.getElem_mem hi)
      obtain ⟨a, as, hcons⟩ := List.exists_cons_of_ne_nil hne
      rw [hcons, stretch_getD (maxLen ls) p hp a as dflt]
      simp only [List.length_cons, Nat.add_sub_cancel]
  · rintro ⟨l, hl, he⟩
    rw [match_long_repeat, if_pos]
    exact List.any_eq_true.mpr ⟨l, hl, by simp [he]⟩

/-- Witness for C9 on input lengths [1, 3, 1]: alignment to length 3 by
last-element repetition, and failure on an empty sequence. -/
theorem claim9_aligner_witness :
    match_long_repeat [[(1 : ℕ)], [2, 3, 4], [5]] =
      .ok ([[(1 : ℕ)], [2, 3, 4], [5]].map
        (stretch (maxLen [[(1 : ℕ)], [2, 3, 4], [5]]))) ∧
    match_long_repeat [[(1 : ℕ)], [], [5]] = .error .emptyInput ∧
    match_long_repeat [[(1 : ℕ)], [2, 3, 4], [5]] =
      .ok [[1, 1, 1], [2, 3, 4], [5, 5, 5]] :=
  ⟨((claim9_aligner [[(1 : ℕ)], [2, 3, 4], [5]]).1 (by simp)).1,
   (claim9_aligner [[(1 : ℕ)], [], [5]]).2 ⟨[], by simp, rfl⟩,
   by rfl⟩

end DupEdge
